import Mathlib

/-!
# DistortSignals — time-series consistency and derived-bar engine, shallow embedding

Embeddings of:
* `calc_dxy_range_1m` (src/scripts/dxy_migration_phase3.py, the SQL text in
  `CALC_DXY_RANGE_1M_FUNCTION`): the synthetic-index price formula, the
  valid/skip policy for timestamps, and the `INSERT ... ON CONFLICT DO UPDATE`
  upsert into `data_bars`.
* the verification check catalog of src/scripts/verify_data.py:
  `check_timestamp_monotonicity`, `check_gap_density`,
  `check_agg_consistency_1m_to_5m_coverage`, `check_enhanced_ohlc_integrity`
  (its per-bar filter predicates), the `safe_check` isolation wrapper of
  `run_phase_a`/`run_phase_b`, `result_flag`, the Phase-B coverage guardrail,
  and the overall verdict of `main`.

Timestamps are seconds since the epoch (`Nat` or `Int`), prices are `ℚ` for
stored closes and `ℝ` for the real-valued SQL expression `exp`/`ln` of the
index price.  Table rows are Lean structures; SQL window functions
(`lag ... over (partition by symbol order by ts_utc)`) are modelled by
sorting the per-symbol timestamp list ascending and zipping it with its tail.
-/

/-! ## Synthetic Index Calculator (dxy_migration_phase3.py) -/

/-- The six fixed FX component symbols of the DXY index
(`WHERE canonical_symbol IN ('EURUSD','USDJPY','GBPUSD','USDCAD','USDSEK','USDCHF')`). -/
def dxy_components : List String :=
  ["EURUSD", "USDJPY", "GBPUSD", "USDCAD", "USDSEK", "USDCHF"]

/-- The six signed exponents of the DXY formula, in component order, exactly
the literals of the SQL text: `-0.576, 0.136, -0.119, 0.091, 0.042, 0.036`. -/
def dxy_weights : List ℚ := [-0.576, 0.136, -0.119, 0.091, 0.042, 0.036]

/-- The fixed base constant `50.14348112` of the SQL text. -/
def dxy_base : ℚ := 50.14348112

/-- The `dxy_price` expression of the `dxy_bars` CTE, literally:
`50.14348112 * exp(-0.576*ln(eurusd)) * exp(0.136*ln(usdjpy))
 * exp(-0.119*ln(gbpusd)) * exp(0.091*ln(usdcad)) * exp(0.042*ln(usdsek))
 * exp(0.036*ln(usdchf))` over the reals.  (The SQL then casts the value to
`DECIMAL(20,8)` for storage; the cast is a rounding of this value and is not
part of the formula itself.) -/
noncomputable def dxy_price (eurusd usdjpy gbpusd usdcad usdsek usdchf : ℝ) : ℝ :=
  (50.14348112 : ℝ)
    * Real.exp (-0.576 * Real.log eurusd)
    * Real.exp (0.136 * Real.log usdjpy)
    * Real.exp (-0.119 * Real.log gbpusd)
    * Real.exp (0.091 * Real.log usdcad)
    * Real.exp (0.042 * Real.log usdsek)
    * Real.exp (0.036 * Real.log usdchf)

/-- One 1-minute component row of `data_bars`, restricted to the columns the
`calc_dxy_range_1m` SQL reads: `canonical_symbol`, `timeframe`, `ts_utc`,
`close`. -/
structure FxRow where
  sym : String
  tf : String
  ts : Nat
  close : ℚ
  deriving DecidableEq

/-- The rows every CTE of `calc_dxy_range_1m` ranges over: component symbol,
timeframe `'1m'`, and `ts_utc >= p_from_utc AND ts_utc < p_to_utc`. -/
def componentRows (db : List FxRow) (fromTs toTs : Nat) : List FxRow :=
  db.filter fun r =>
    r.sym ∈ dxy_components ∧ r.tf = "1m" ∧ fromTs ≤ r.ts ∧ r.ts < toTs

/-- The `base_timestamps` CTE: `SELECT DISTINCT ts_utc` over the component
rows in range. -/
def base_timestamps (db : List FxRow) (fromTs toTs : Nat) : List Nat :=
  ((componentRows db fromTs toTs).map FxRow.ts).dedup

/-- The closes feeding one pivot cell of the `fx_pivoted` CTE: the `close`
values of the in-range rows of one component symbol at one timestamp. -/
def closesAt (db : List FxRow) (fromTs toTs : Nat) (s : String) (ts : Nat) : List ℚ :=
  ((componentRows db fromTs toTs).filter fun r => r.sym = s ∧ r.ts = ts).map FxRow.close

/-- One cell of the `fx_pivoted` CTE:
`MAX(CASE WHEN canonical_symbol = s THEN close END)` grouped by `ts_utc`;
`none` models SQL NULL (no row of that component at that timestamp). -/
def maxClose (db : List FxRow) (fromTs toTs : Nat) (s : String) (ts : Nat) : Option ℚ :=
  (closesAt db fromTs toTs s ts).max?

/-- The `valid_tuples` filter: every pivoted component close is non-NULL and
`> 0` (a NULL comparison is not true in SQL, so a missing component excludes
the timestamp). -/
def validTs (db : List FxRow) (fromTs toTs : Nat) (ts : Nat) : Bool :=
  dxy_components.all fun s =>
    match maxClose db fromTs toTs s ts with
    | some v => decide (0 < v)
    | none => false

/-- The timestamps of the `valid_tuples`/`dxy_bars` CTEs: exactly the distinct
in-range component timestamps whose six pivoted closes are all positive.
These are the timestamps the upsert writes. -/
def writtenTs (db : List FxRow) (fromTs toTs : Nat) : List Nat :=
  (base_timestamps db fromTs toTs).filter fun ts => validTs db fromTs toTs ts

/-- The `skip_count` CTE: `base_timestamps EXCEPT valid_tuples`
(`base_timestamps` is already duplicate-free). -/
def skippedTs (db : List FxRow) (fromTs toTs : Nat) : List Nat :=
  (base_timestamps db fromTs toTs).filter fun ts => ¬ validTs db fromTs toTs ts

/-- The `skipped` counter returned in the function's JSONB result. -/
def skippedCount (db : List FxRow) (fromTs toTs : Nat) : Nat :=
  (skippedTs db fromTs toTs).length

/-- A pivoted component close as fed into the price expression; for a valid
timestamp the option is always `some`, and `getD 0` is never exercised. -/
def pivotClose (db : List FxRow) (fromTs toTs : Nat) (s : String) (ts : Nat) : ℚ :=
  (maxClose db fromTs toTs s ts).getD 0

/-- The index price the `dxy_bars` CTE computes at one valid timestamp. -/
noncomputable def dxyPriceAt (db : List FxRow) (fromTs toTs : Nat) (ts : Nat) : ℝ :=
  dxy_price
    (pivotClose db fromTs toTs "EURUSD" ts) (pivotClose db fromTs toTs "USDJPY" ts)
    (pivotClose db fromTs toTs "GBPUSD" ts) (pivotClose db fromTs toTs "USDCAD" ts)
    (pivotClose db fromTs toTs "USDSEK" ts) (pivotClose db fromTs toTs "USDCHF" ts)

/-- A stored `data_bars` row, restricted to the columns the upsert of
`calc_dxy_range_1m` touches or the claims mention: the unique key
`(canonical_symbol, timeframe, ts_utc)`, the OHLC prices, `vol` and `source`.
(`vwap`, `trade_count`, `ingested_at` and the `raw` audit payload — the only
place `p_derivation_version` is recorded — do not enter any computation.) -/
structure DbRow where
  sym : String
  tf : String
  ts : Nat
  opn : ℝ
  high : ℝ
  low : ℝ
  close : ℝ
  vol : ℚ
  source : String

/-- Key match against the unique key `(canonical_symbol, timeframe, ts_utc)`. -/
def keyIs (sym tf : String) (ts : Nat) (x : DbRow) : Bool :=
  decide (x.sym = sym ∧ x.tf = tf ∧ x.ts = ts)

/-- Row lookup by unique key. -/
def findRow (store : List DbRow) (sym tf : String) (ts : Nat) : Option DbRow :=
  store.find? (keyIs sym tf ts)

/-- The `ON CONFLICT ... DO UPDATE SET open=EXCLUDED.open, high=..., low=...,
close=..., source='synthetic'` assignment: OHLC and source are overwritten,
every other column (in particular `vol`) keeps its stored value. -/
def updateRow (x r : DbRow) : DbRow :=
  { x with opn := r.opn, high := r.high, low := r.low, close := r.close, source := r.source }

/-- Upsert of a single row: insert when the unique key is absent, otherwise
update OHLC and source in place. -/
def upsertOne (store : List DbRow) (r : DbRow) : List DbRow :=
  if store.any (keyIs r.sym r.tf r.ts) then
    store.map fun x => if keyIs r.sym r.tf r.ts x then updateRow x r else x
  else
    store ++ [r]

/-- Upsert of a batch of rows (the `upserted` CTE). -/
def upsert (store : List DbRow) (batch : List DbRow) : List DbRow :=
  batch.foldl upsertOne store

/-- The row the `upserted` CTE feeds into `data_bars` for one valid
timestamp: `'DXY', '1m', ts_utc, dxy_price, dxy_price, dxy_price, dxy_price,
0, ..., 'synthetic'`. -/
noncomputable def dxyRow (db : List FxRow) (fromTs toTs ts : Nat) : DbRow :=
  { sym := "DXY", tf := "1m", ts := ts,
    opn := dxyPriceAt db fromTs toTs ts, high := dxyPriceAt db fromTs toTs ts,
    low := dxyPriceAt db fromTs toTs ts, close := dxyPriceAt db fromTs toTs ts,
    vol := 0, source := "synthetic" }

/-- The batch of rows one invocation upserts: one row per valid timestamp. -/
noncomputable def dxyRows (db : List FxRow) (fromTs toTs : Nat) : List DbRow :=
  (writtenTs db fromTs toTs).map fun ts => dxyRow db fromTs toTs ts

/-- The write effect of one `calc_dxy_range_1m` invocation on the store. -/
noncomputable def calc_dxy_range_1m (db : List FxRow) (fromTs toTs : Nat)
    (store : List DbRow) : List DbRow :=
  upsert store (dxyRows db fromTs toTs)

/-- The row key as a value, for uniqueness statements. -/
def rowKey (r : DbRow) : String × String × Nat :=
  (r.sym, r.tf, r.ts)

/-- No two rows of the store share the unique key
`(canonical_symbol, timeframe, ts_utc)`. -/
def uniqueKeys (store : List DbRow) : Prop :=
  store.Pairwise fun a b => rowKey a ≠ rowKey b

/-- The OHLC payload of a row, for "OHLC values unchanged" statements. -/
def ohlcQuad (r : DbRow) : ℝ × ℝ × ℝ × ℝ :=
  (r.opn, r.high, r.low, r.close)

/-- The OHLC values stored under the DXY 1m key at a timestamp. -/
def ohlcAt (store : List DbRow) (ts : Nat) : Option (ℝ × ℝ × ℝ × ℝ) :=
  (findRow store "DXY" "1m" ts).map ohlcQuad

/-! ## Verification check catalog (verify_data.py) -/

/-- `ORDER BY ts_utc` inside a window partition: ascending sort. -/
def sortTs (tss : List Nat) : List Nat :=
  tss.insertionSort (· ≤ ·)

/-- The `lag(ts_utc) over (partition by symbol order by ts_utc)` pairs of one
symbol's series: `(ts_utc, prev_ts)` for every row that has a predecessor. -/
def lagPairs (tss : List Nat) : List (Nat × Nat) :=
  (sortTs tss).tail.zip (sortTs tss)

/-- `check_timestamp_monotonicity`: `count(*)` of rows with
`prev_ts is not null and ts_utc <= prev_ts` for one symbol. -/
def nonMonotonicCount (tss : List Nat) : Nat :=
  (lagPairs tss).countP fun p => p.1 ≤ p.2

/-- The timestamps of one symbol's rows (one table, one timeframe). -/
def symbolTimestamps (rows : List (String × Nat)) (sym : String) : List Nat :=
  (rows.filter fun r => r.1 = sym).map Prod.snd

/-- The symbols `check_timestamp_monotonicity` reports: those whose
`non_monotonic_count` is positive (the query groups by symbol and only
symbols with matching rows appear). -/
def monotonicityReport (rows : List (String × Nat)) : List String :=
  ((rows.map Prod.fst).dedup).filter fun s => 0 < nonMonotonicCount (symbolTimestamps rows s)

/-- The `TIMEFRAME_SECONDS` table of verify_data.py. -/
def TIMEFRAME_SECONDS : List (String × Nat) :=
  [("1m", 60), ("5m", 300), ("15m", 900), ("30m", 1800),
   ("1h", 3600), ("4h", 14400), ("1d", 86400)]

/-- `timeframe_to_seconds`: lookup, `none` for the unsupported-timeframe
`ValueError`. -/
def timeframe_to_seconds (tf : String) : Option Nat :=
  ((TIMEFRAME_SECONDS.filter fun p => p.1 = tf).map Prod.snd).head?

/-- The gap threshold `check_gap_density` builds into its SQL, literally the
Python expression `'1 minute' if tf == '1m' else '1 minute'`: one minute for
every timeframe (both branches of the conditional are identical). -/
def gap_interval_seconds (tf : String) : Nat :=
  if tf = "1m" then 60 else 60

/-- The `gaps` CTE of `check_gap_density`: `(ts_utc - prev_ts)` per
adjacent ordered pair of one symbol's series. -/
def gapsOf (tss : List Nat) : List Nat :=
  (lagPairs tss).map fun p => p.1 - p.2

/-- `gap_events` of `check_gap_density` for one symbol:
`count(*) filter (where gap > interval ...)`. -/
def gap_events (tf : String) (tss : List Nat) : Nat :=
  (gapsOf tss).countP fun g => gap_interval_seconds tf < g

/-- `max_gap` of `check_gap_density` for one symbol. -/
def max_gap (tss : List Nat) : Nat :=
  (gapsOf tss).foldr max 0

/-- The 5-minute bucket of a timestamp
(`date_trunc('hour', ts) + make_interval(mins => (minute/5)*5)`). -/
def bucket5m (ts : Nat) : Nat :=
  ts / 300 * 300

/-- `n_1m` of the `roll` CTE of `check_agg_consistency_1m_to_5m_coverage`:
the number of 1m rows of a symbol falling in a 5m bucket. -/
def bucketCount (rows : List (String × Nat)) (sym : String) (b : Nat) : Nat :=
  (rows.filter fun r => r.1 = sym ∧ bucket5m r.2 = b).length

/-- The 5m buckets of a symbol that the `roll` CTE groups (buckets that have
at least one 1m row). -/
def symBuckets (rows : List (String × Nat)) (sym : String) : List Nat :=
  ((rows.filter fun r => r.1 = sym).map fun r => bucket5m r.2).dedup

/-- The check's per-bucket defect test: `n_1m < min_required` (both the
`WHERE` clause and the `bad_5m_bars` filter of the query). -/
def bucketFlagged (minRequired n : Nat) : Bool :=
  decide (n < minRequired)

/-- `bad_5m_bars` of `check_agg_consistency_1m_to_5m_coverage` for one symbol:
the number of its buckets with fewer than `min_required` child rows. -/
def bad_5m_bars (rows : List (String × Nat)) (minRequired : Nat) (sym : String) : Nat :=
  (symBuckets rows sym).countP fun b => bucketFlagged minRequired (bucketCount rows sym b)

/-- Modelled from the spec: the Aggregation Engine (the SQL function
`aggregate_1m_to_5m_window`, created by the migration file
`dxy_migration_phase5.sql` which is not under src/ — only its caller in
src/scripts/dxy_migration_phase5.py appears) marks a bucket with `n` of `R`
child bars with `quality_score = n/R`. -/
def quality_score (n R : Nat) : ℚ :=
  (n : ℚ) / (R : ℚ)

/-- The per-bar filter predicates of `check_enhanced_ohlc_integrity`, as the
SQL `count(*) filter (where ...)` conditions. -/
def high_less_than_low (r : DbRow) : Prop := r.high < r.low

/-- `open_out_of_range` filter of `check_enhanced_ohlc_integrity`. -/
def open_out_of_range (r : DbRow) : Prop := r.opn < r.low ∨ r.opn > r.high

/-- `close_out_of_range` filter of `check_enhanced_ohlc_integrity`. -/
def close_out_of_range (r : DbRow) : Prop := r.close < r.low ∨ r.close > r.high

/-- `zero_range_bars` filter of `check_enhanced_ohlc_integrity`:
`where high = low`. -/
def zero_range_bar (r : DbRow) : Prop := r.high = r.low

/-! ## Runner, isolation, verdict (verify_data.py) -/

/-- The `safe_check` wrapper of `run_phase_a`/`run_phase_b`: a check whose
execution raises is caught and contributes an empty DataFrame; a normal check
contributes its own result. -/
def safe_check (outcome : Except String (List ℚ)) : List ℚ :=
  match outcome with
  | Except.ok df => df
  | Except.error _ => []

/-- The phase runners execute every catalog check in sequence, each wrapped in
`safe_check`. -/
def run_checks (checks : List (Except String (List ℚ))) : List (List ℚ) :=
  checks.map safe_check

/-- `result_flag`: `True` if the DataFrame indicates problems (non-empty). -/
def result_flag (df : List ℚ) : Bool :=
  !df.isEmpty

/-- The verdict of `main`: `all_ok` stays true exactly when no phase's
`problem_flags` mapping contains a true flag; the process exits successfully
iff `all_ok`. -/
def overall_ok (phases : List (List (String × Bool))) : Bool :=
  phases.all fun flags => flags.all fun p => !p.2

/-- The Phase-B coverage guardrail's grace period: `grace_days = 7`, in
seconds. -/
def grace_seconds : Int := 7 * 86400

/-- `required_min_ts` of the Phase-B coverage guardrail:
`now - interval 'hist_years years' + interval '7 days'` (the historical
window length is passed as a duration in seconds). -/
def required_min_ts (now histDur : Int) : Int :=
  now - histDur + grace_seconds

/-- `sufficient_coverage` of the guardrail query:
`min(ts_utc) <= required_min_ts`; an empty store (NULL minimum) is treated as
not sufficient, exactly as `not coverage_check.iloc[0]["sufficient_coverage"]`
treats a missing value. -/
def sufficient_coverage (earliest : Option Int) (now histDur : Int) : Bool :=
  match earliest with
  | some e => decide (e ≤ required_min_ts now histDur)
  | none => false

/-- The outcome of `run_phase_b`: the `insufficient_historical_coverage`
problem flag and the results of the remaining historical checks, which the
function body runs unconditionally after the guardrail. -/
structure PhaseBResult where
  insufficient_historical_coverage : Bool
  check_results : List (List ℚ)

/-- `run_phase_b` control flow: evaluate the guardrail, then execute every
remaining historical check (each wrapped in `safe_check`) regardless of the
guardrail outcome. -/
def run_phase_b_model (earliest : Option Int) (now histDur : Int)
    (checks : List (Except String (List ℚ))) : PhaseBResult :=
  { insufficient_historical_coverage := !(sufficient_coverage earliest now histDur),
    check_results := run_checks checks }

/-- A Python value flowing out of a `safe_check` call in `run_phase_a`: the
staleness check returns a `(DataFrame, counts)` tuple (staleness rows plus
the warning/critical counters), every other catalog check returns a single
DataFrame — and so does the wrapper's exception fallback `pd.DataFrame()`,
whatever the wrapped check would have returned. -/
inductive PyResult where
  | df : List ℚ → PyResult
  | pair : List ℚ × Nat × Nat → PyResult

/-- The `safe_check` wrapper applied to a tuple-returning check: on success
it passes the tuple through, on an exception it returns the empty DataFrame
`pd.DataFrame()` — a value of the wrong shape for this slot's consumer. -/
def safe_check_slot (outcome : Except String (List ℚ × Nat × Nat)) : PyResult :=
  match outcome with
  | Except.ok v => PyResult.pair v
  | Except.error _ => PyResult.df []

/-- The tuple-unpacking `freshness, staleness_counts = ...` on line 802 of
verify_data.py: a 2-tuple unpacks; the only DataFrame that can reach this
unpack is the zero-column fallback `pd.DataFrame()`, whose iteration yields
no targets, so the unpack raises `ValueError`. -/
def unpack2 (v : PyResult) : Except String (List ℚ × Nat × Nat) :=
  match v with
  | PyResult.pair p => Except.ok p
  | PyResult.df _ => Except.error "ValueError"

/-- The control flow of `run_phase_a`: the staleness slot runs first, its
wrapped result is tuple-unpacked; if the unpack raises, the exception leaves
`run_phase_a` (main catches it and exits 1) and no remaining catalog check
executes; otherwise every remaining check runs, each wrapped in
`safe_check`. -/
def run_phase_a_model (staleness : Except String (List ℚ × Nat × Nat))
    (checks : List (Except String (List ℚ))) :
    Except String ((List ℚ × Nat × Nat) × List (List ℚ)) :=
  match unpack2 (safe_check_slot staleness) with
  | Except.ok p => Except.ok (p, run_checks checks)
  | Except.error e => Except.error e

/-! ## Concrete fixtures for witnesses and counterexamples -/

/-- A component dataset: all six FX components have a 1m bar at `ts = 0` with
close `1`. -/
def db0 : List FxRow :=
  [{ sym := "EURUSD", tf := "1m", ts := 0, close := 1 },
   { sym := "USDJPY", tf := "1m", ts := 0, close := 1 },
   { sym := "GBPUSD", tf := "1m", ts := 0, close := 1 },
   { sym := "USDCAD", tf := "1m", ts := 0, close := 1 },
   { sym := "USDSEK", tf := "1m", ts := 0, close := 1 },
   { sym := "USDCHF", tf := "1m", ts := 0, close := 1 }]

/-- A pre-existing DXY 1m row in `data_bars` with a non-zero `vol`, as the
phase-4 migration (which copies `vol` from `derived_data_bars` and uses
`ON CONFLICT DO NOTHING`) can leave behind. -/
def preRow : DbRow :=
  { sym := "DXY", tf := "1m", ts := 0, opn := 1, high := 1, low := 1, close := 1,
    vol := 7, source := "migrated_from_derived" }

/-! ## Lemmas: monotonicity check -/

/-- Over an ascending-sorted series, the lag-pair count of
`ts_utc <= prev_ts` is zero exactly when the series is strictly increasing. -/
theorem lagLe_zero_iff_chain (l : List Nat) (hl : l.Sorted (· ≤ ·)) :
    ((l.tail.zip l).countP fun p => p.1 ≤ p.2) = 0 ↔ l.Chain' (· < ·) := by
  induction l with
  | nil => simp
  | cons a t ih =>
    cases t with
    | nil => simp
    | cons b t2 =>
      have hab : a ≤ b := (List.sorted_cons.mp hl).1 b (by simp)
      have hl2 : (b :: t2).Sorted (· ≤ ·) := (List.sorted_cons.mp hl).2
      have h1 := ih hl2
      simp only [List.tail_cons, List.zip_cons_cons, List.countP_cons] at h1 ⊢
      constructor
      · intro h
        rcases Nat.add_eq_zero.mp h with ⟨hc, hif⟩
        have hba : ¬ (b ≤ a) := by
          intro hba
          simp [hba] at hif
        exact List.chain'_cons.mpr ⟨Nat.lt_of_not_le hba, h1.mp (by simpa using hc)⟩
      · intro h
        rcases List.chain'_cons.mp h with ⟨hlt, hch⟩
        have : ¬ (b ≤ a) := Nat.not_le_of_lt hlt
        simp [this, h1.mpr hch]

/-- `non_monotonic_count` is positive exactly when the symbol's series
contains a duplicated timestamp. -/
theorem nonMonotonicCount_pos_iff (tss : List Nat) :
    0 < nonMonotonicCount tss ↔ ¬ tss.Nodup := by
  have hs : (sortTs tss).Sorted (· ≤ ·) := List.sorted_insertionSort _ tss
  have hperm := List.perm_insertionSort (· ≤ ·) tss
  have hzero : nonMonotonicCount tss = 0 ↔ tss.Nodup := by
    unfold nonMonotonicCount lagPairs
    rw [lagLe_zero_iff_chain _ hs, List.chain'_iff_pairwise]
    constructor
    · intro h
      exact hperm.nodup_iff.mp (h.imp fun hab => Nat.ne_of_lt hab)
    · intro h
      exact hs.lt_of_le (hperm.nodup_iff.mpr h)
  rw [Nat.pos_iff_ne_zero]
  exact not_congr hzero

/-! ## Lemmas: real-exponent form of the index price -/

/-- `exp(w * ln x) = x ^ w` for positive `x`. -/
theorem exp_mul_log (x w : ℝ) (hx : 0 < x) : Real.exp (w * Real.log x) = x ^ w := by
  rw [Real.rpow_def_of_pos hx, mul_comm]

/-! ## Claim theorems C1, C3, C4 -/

/-- Claim C1, counterexample: the weight table of `calc_dxy_range_1m` does
not have three negative and three positive exponents — it has exactly two
negative ones. -/
theorem dxy_weight_table_not_three_negative :
    ¬ (dxy_weights.countP (fun w => decide (w < 0)) = 3
        ∧ dxy_weights.countP (fun w => decide (0 < w)) = 3) := by
  simp [dxy_weights, List.countP_cons, List.countP_nil]
  norm_num

/-- Claim C1 as amended: for six positive component closes the price computed
by `calc_dxy_range_1m` equals `K * Π_i component_i ^ w_i` with fixed base
`K = 50.14348112` and the fixed signed weight table
`(-0.576, 0.136, -0.119, 0.091, 0.042, 0.036)`, of which two exponents are
negative and four are positive. -/
theorem dxy_price_formula_weights (e j g c s f : ℝ)
    (he : 0 < e) (hj : 0 < j) (hg : 0 < g) (hc : 0 < c) (hs : 0 < s) (hf : 0 < f) :
    dxy_price e j g c s f =
      (50.14348112 : ℝ) * e ^ (-0.576 : ℝ) * j ^ (0.136 : ℝ) * g ^ (-0.119 : ℝ)
        * c ^ (0.091 : ℝ) * s ^ (0.042 : ℝ) * f ^ (0.036 : ℝ)
    ∧ dxy_weights.countP (fun w => decide (w < 0)) = 2
    ∧ dxy_weights.countP (fun w => decide (0 < w)) = 4 := by
  refine ⟨?_, ?_, ?_⟩
  · unfold dxy_price
    rw [exp_mul_log _ _ he, exp_mul_log _ _ hj, exp_mul_log _ _ hg,
      exp_mul_log _ _ hc, exp_mul_log _ _ hs, exp_mul_log _ _ hf]
  · simp [dxy_weights, List.countP_cons, List.countP_nil]
    norm_num
  · simp [dxy_weights, List.countP_cons, List.countP_nil]
    norm_num

/-- Claim C1, witness: the amended formula evaluated at all components `1`. -/
theorem dxy_price_formula_weights_witness :
    dxy_price 1 1 1 1 1 1 =
      (50.14348112 : ℝ) * (1 : ℝ) ^ (-0.576 : ℝ) * (1 : ℝ) ^ (0.136 : ℝ)
        * (1 : ℝ) ^ (-0.119 : ℝ) * (1 : ℝ) ^ (0.091 : ℝ) * (1 : ℝ) ^ (0.042 : ℝ)
        * (1 : ℝ) ^ (0.036 : ℝ) :=
  (dxy_price_formula_weights 1 1 1 1 1 1 one_pos one_pos one_pos one_pos one_pos one_pos).1

/-- Claim C3, counterexample: a symbol whose series has a bar with `ts_utc`
less than or equal to another existing bar's timestamp (here `0 ≤ 60`) is not
reported by `check_timestamp_monotonicity` — the lag is taken over the
ascending-ordered series, so the check never sees a decrease. -/
theorem monotonicity_misses_increasing_pair :
    ((0 : Nat) ≤ 60
      ∧ ("A", (0 : Nat)) ∈ [("A", (0 : Nat)), ("A", 60)]
      ∧ ("A", (60 : Nat)) ∈ [("A", (0 : Nat)), ("A", 60)])
    ∧ monotonicityReport [("A", 0), ("A", 60)] = [] := by
  refine ⟨⟨by decide, by decide, by decide⟩, ?_⟩
  decide

/-- Claim C3 as amended: `check_timestamp_monotonicity` reports a symbol iff
its stored series contains a duplicated `ts_utc` value; because `lag` is
computed over the series ordered ascending by `ts_utc`, only exact-duplicate
timestamps are detectable. -/
theorem monotonicity_reports_iff_duplicate_ts (rows : List (String × Nat)) (sym : String) :
    sym ∈ monotonicityReport rows ↔
      sym ∈ rows.map Prod.fst ∧ ¬ (symbolTimestamps rows sym).Nodup := by
  unfold monotonicityReport
  simp [List.mem_filter, List.mem_dedup, nonMonotonicCount_pos_iff]

/-- Claim C3, witness: a duplicated timestamp is reported, a clean ascending
series is not. -/
theorem monotonicity_reports_iff_duplicate_ts_witness :
    "B" ∈ monotonicityReport [("B", 5), ("B", 5)]
    ∧ "A" ∉ monotonicityReport [("A", 0), ("A", 60)] := by
  constructor
  · exact (monotonicity_reports_iff_duplicate_ts [("B", 5), ("B", 5)] "B").mpr
      ⟨by decide, by decide⟩
  · intro h
    have := (monotonicity_reports_iff_duplicate_ts [("A", 0), ("A", 60)] "A").mp h
    exact absurd this.2 (by decide)

/-- Claim C4: `check_gap_density` builds its event threshold from the Python
expression `'1 minute' if tf == '1m' else '1 minute'`, whose branches are
identical, so for `tf = '5m'` two consecutive bars exactly one 5m interval
(300 s) apart are counted as a gap event even though no delta exceeds one bar
interval of the timeframe. -/
theorem gap_density_threshold_hardcoded_one_minute :
    gap_events "5m" [0, 300] = 1
    ∧ max_gap [0, 300] = 300
    ∧ timeframe_to_seconds "5m" = some 300
    ∧ (∀ g ∈ gapsOf [0, 300], ¬ (300 < g))
    ∧ gap_interval_seconds "5m" = 60 := by
  refine ⟨by decide, by decide, by decide, ?_, by decide⟩
  decide

/-! ## Lemmas: valid/skip policy of calc_dxy_range_1m -/

/-- A fold of `max` over rationals is positive iff the seed or some element
is. -/
theorem pos_foldl_max (a : ℚ) (l : List ℚ) :
    0 < l.foldl max a ↔ 0 < a ∨ ∃ x ∈ l, 0 < x := by
  induction l generalizing a with
  | nil => simp
  | cons b t ih =>
    simp only [List.foldl_cons]
    rw [ih (max a b)]
    simp [lt_max_iff, or_assoc]

/-- The pivot-cell test of `valid_tuples` (`MAX(...) > 0`, NULL excluded)
holds iff some contributing close is positive. -/
theorem max_cell_pos_iff (l : List ℚ) :
    (match l.max? with
     | some v => decide (0 < v)
     | none => false) = true ↔ ∃ x ∈ l, 0 < x := by
  cases l with
  | nil => simp [List.max?]
  | cons a t => simp [List.max?, pos_foldl_max]

/-- Membership in the pivot-cell closes. -/
theorem mem_closesAt (db : List FxRow) (f t : Nat) (s : String) (ts : Nat) (x : ℚ) :
    x ∈ closesAt db f t s ts ↔
      ∃ r ∈ db, r.sym = s ∧ r.tf = "1m" ∧ r.ts = ts ∧ (f ≤ ts ∧ ts < t)
        ∧ s ∈ dxy_components ∧ r.close = x := by
  unfold closesAt componentRows
  simp only [List.mem_map, List.mem_filter, decide_eq_true_eq]
  constructor
  · rintro ⟨r, ⟨⟨hr, hcomp, htf, hge, hlt⟩, hsym, hts⟩, hclose⟩
    subst hts
    exact ⟨r, hr, hsym, htf, rfl, ⟨hge, hlt⟩, hsym ▸ hcomp, hclose⟩
  · rintro ⟨r, hr, hsym, htf, hts, ⟨hge, hlt⟩, hcomp, hclose⟩
    subst hts
    exact ⟨r, ⟨⟨hr, hsym ▸ hcomp, htf, hge, hlt⟩, hsym, rfl⟩, hclose⟩

/-- Membership in `base_timestamps`. -/
theorem mem_base_timestamps (db : List FxRow) (f t ts : Nat) :
    ts ∈ base_timestamps db f t ↔
      (f ≤ ts ∧ ts < t)
        ∧ ∃ r ∈ db, r.sym ∈ dxy_components ∧ r.tf = "1m" ∧ r.ts = ts := by
  unfold base_timestamps componentRows
  simp only [List.mem_dedup, List.mem_map, List.mem_filter, decide_eq_true_eq]
  constructor
  · rintro ⟨r, ⟨hr, hcomp, htf, hge, hlt⟩, hts⟩
    subst hts
    exact ⟨⟨hge, hlt⟩, r, hr, hcomp, htf, rfl⟩
  · rintro ⟨⟨hge, hlt⟩, r, hr, hcomp, htf, hts⟩
    subst hts
    exact ⟨r, ⟨hr, hcomp, htf, hge, hlt⟩, rfl⟩

/-- `valid_tuples` membership, characterized: the six components each have an
in-range bar with positive close at the timestamp. -/
theorem validTs_iff (db : List FxRow) (f t ts : Nat) :
    validTs db f t ts = true ↔
      ∀ s ∈ dxy_components, ∃ r ∈ db,
        r.sym = s ∧ r.tf = "1m" ∧ r.ts = ts ∧ (f ≤ ts ∧ ts < t) ∧ 0 < r.close := by
  unfold validTs maxClose
  rw [List.all_eq_true]
  refine forall_congr' fun s => ?_
  refine imp_congr_right fun hs => ?_
  rw [max_cell_pos_iff]
  constructor
  · rintro ⟨x, hx, hpos⟩
    obtain ⟨r, hr, hsym, htf, hts, hran, _, hclose⟩ := (mem_closesAt db f t s ts x).mp hx
    exact ⟨r, hr, hsym, htf, hts, hran, hclose ▸ hpos⟩
  · rintro ⟨r, hr, hsym, htf, hts, hran, hpos⟩
    exact ⟨r.close, (mem_closesAt db f t s ts r.close).mpr
      ⟨r, hr, hsym, htf, hts, hran, hs, rfl⟩, hpos⟩

/-- `writtenTs` membership, characterized: the function writes an index bar
at `ts` iff `ts` is in range and all six components have a bar at `ts` with
positive close. -/
theorem mem_writtenTs_iff (db : List FxRow) (f t ts : Nat) :
    ts ∈ writtenTs db f t ↔
      (f ≤ ts ∧ ts < t)
        ∧ ∀ s ∈ dxy_components, ∃ r ∈ db,
            r.sym = s ∧ r.tf = "1m" ∧ r.ts = ts ∧ 0 < r.close := by
  unfold writtenTs
  rw [List.mem_filter]
  constructor
  · rintro ⟨hbase, hvalid⟩
    have hran := ((mem_base_timestamps db f t ts).mp hbase).1
    have hv := (validTs_iff db f t ts).mp (by simpa using hvalid)
    refine ⟨hran, fun s hs => ?_⟩
    obtain ⟨r, hr, h1, h2, h3, _, h5⟩ := hv s hs
    exact ⟨r, hr, h1, h2, h3, h5⟩
  · rintro ⟨hran, hall⟩
    have hvalid : validTs db f t ts = true := by
      refine (validTs_iff db f t ts).mpr fun s hs => ?_
      obtain ⟨r, hr, h1, h2, h3, h5⟩ := hall s hs
      exact ⟨r, hr, h1, h2, h3, hran, h5⟩
    have hbase : ts ∈ base_timestamps db f t := by
      refine (mem_base_timestamps db f t ts).mpr ⟨hran, ?_⟩
      obtain ⟨r, hr, h1, h2, h3, _⟩ := hall "EURUSD" (by simp [dxy_components])
      exact ⟨r, hr, by rw [h1]; simp [dxy_components], h2, h3⟩
    exact ⟨hbase, by simpa using hvalid⟩

/-- `skippedTs` membership, characterized: the timestamp has at least one
in-range component bar but lacks a full set of positive component closes. -/
theorem mem_skippedTs_iff (db : List FxRow) (f t ts : Nat) :
    ts ∈ skippedTs db f t ↔
      (f ≤ ts ∧ ts < t)
        ∧ (∃ r ∈ db, r.sym ∈ dxy_components ∧ r.tf = "1m" ∧ r.ts = ts)
        ∧ ¬ ∀ s ∈ dxy_components, ∃ r ∈ db,
            r.sym = s ∧ r.tf = "1m" ∧ r.ts = ts ∧ 0 < r.close := by
  unfold skippedTs
  rw [List.mem_filter]
  constructor
  · rintro ⟨hbase, hnv⟩
    obtain ⟨hran, hex⟩ := (mem_base_timestamps db f t ts).mp hbase
    refine ⟨hran, hex, fun hall => ?_⟩
    have hvalid : validTs db f t ts = true := by
      refine (validTs_iff db f t ts).mpr fun s hs => ?_
      obtain ⟨r, hr, h1, h2, h3, h5⟩ := hall s hs
      exact ⟨r, hr, h1, h2, h3, hran, h5⟩
    simp [hvalid] at hnv
  · rintro ⟨hran, hex, hnall⟩
    refine ⟨(mem_base_timestamps db f t ts).mpr ⟨hran, hex⟩, ?_⟩
    have hv : ¬ validTs db f t ts = true := by
      intro hv
      refine hnall fun s hs => ?_
      obtain ⟨r, hr, h1, h2, h3, _, h5⟩ := (validTs_iff db f t ts).mp hv s hs
      exact ⟨r, hr, h1, h2, h3, h5⟩
    simp [hv]

/-! ## Claim theorem C5 -/

/-- Claim C5: `calc_dxy_range_1m` computes and writes an index bar at a
timestamp iff the timestamp is in the requested range and all six components
have a bar there with positive close; a timestamp with at least one component
bar but without a full valid set is counted under `skipped`, and no index row
is produced for it. -/
theorem calc_dxy_valid_written_skipped (db : List FxRow) (f t ts : Nat) :
    (ts ∈ writtenTs db f t ↔
      (f ≤ ts ∧ ts < t)
        ∧ ∀ s ∈ dxy_components, ∃ r ∈ db,
            r.sym = s ∧ r.tf = "1m" ∧ r.ts = ts ∧ 0 < r.close)
    ∧ (ts ∈ skippedTs db f t ↔
      (f ≤ ts ∧ ts < t)
        ∧ (∃ r ∈ db, r.sym ∈ dxy_components ∧ r.tf = "1m" ∧ r.ts = ts)
        ∧ ¬ ∀ s ∈ dxy_components, ∃ r ∈ db,
            r.sym = s ∧ r.tf = "1m" ∧ r.ts = ts ∧ 0 < r.close)
    ∧ (ts ∈ skippedTs db f t → ts ∉ writtenTs db f t) := by
  refine ⟨mem_writtenTs_iff db f t ts, mem_skippedTs_iff db f t ts, fun hs hw => ?_⟩
  exact ((mem_skippedTs_iff db f t ts).mp hs).2.2 ((mem_writtenTs_iff db f t ts).mp hw).2

/-- Claim C5, witness: with all six components present and positive at `ts=0`
the bar is written; with `EURUSD` missing the timestamp is skipped and not
written. -/
theorem calc_dxy_valid_written_skipped_witness :
    0 ∈ writtenTs db0 0 60
    ∧ 0 ∈ skippedTs (db0.drop 1) 0 60
    ∧ 0 ∉ writtenTs (db0.drop 1) 0 60 := by
  have h1 := (calc_dxy_valid_written_skipped db0 0 60 0).1
  have h2 := calc_dxy_valid_written_skipped (db0.drop 1) 0 60 0
  exact ⟨h1.mpr (by decide), h2.2.1.mpr (by decide), h2.2.2 (h2.2.1.mpr (by decide))⟩

/-! ## Lemmas: the ON CONFLICT upsert -/

/-- The update assignment does not change the row key. -/
theorem keyIs_updateRow (sym tf : String) (ts : Nat) (x r : DbRow) :
    keyIs sym tf ts (updateRow x r) = keyIs sym tf ts x := by
  simp [keyIs, updateRow]

/-- The update assignment does not change the row key (as a value). -/
theorem rowKey_updateRow (x r : DbRow) : rowKey (updateRow x r) = rowKey x := by
  simp [rowKey, updateRow]

/-- Upserting a row leaves every other key's lookup unchanged. -/
theorem findRow_upsertOne_ne (store : List DbRow) (r : DbRow) (sym tf : String) (ts : Nat)
    (h : ¬ (r.sym = sym ∧ r.tf = tf ∧ r.ts = ts)) :
    findRow (upsertOne store r) sym tf ts = findRow store sym tf ts := by
  unfold upsertOne findRow
  by_cases hany : store.any (keyIs r.sym r.tf r.ts)
  · rw [if_pos hany, List.find?_map]
    have hcomp : (keyIs sym tf ts ∘ fun x =>
        if keyIs r.sym r.tf r.ts x then updateRow x r else x) = keyIs sym tf ts := by
      funext x
      by_cases hk : keyIs r.sym r.tf r.ts x
      · simp [hk, keyIs_updateRow]
      · simp [hk]
    rw [hcomp]
    cases hfind : store.find? (keyIs sym tf ts) with
    | none => rfl
    | some x =>
      have hx := List.find?_some hfind
      have hxk : x.sym = sym ∧ x.tf = tf ∧ x.ts = ts := by simpa [keyIs] using hx
      have hnr : keyIs r.sym r.tf r.ts x = false := by
        simp only [keyIs, decide_eq_false_iff_not]
        rintro ⟨e1, e2, e3⟩
        exact h ⟨by rw [← e1, hxk.1], by rw [← e2, hxk.2.1], by rw [← e3, hxk.2.2]⟩
      simp [hnr]
  · rw [if_neg hany, List.find?_append]
    have hr : keyIs sym tf ts r = false := by
      simp only [keyIs, decide_eq_false_iff_not]
      exact h
    simp [List.find?, hr]

/-- Upserting a row makes its key's lookup the updated or inserted row. -/
theorem findRow_upsertOne_self (store : List DbRow) (r : DbRow) :
    findRow (upsertOne store r) r.sym r.tf r.ts =
      some (match findRow store r.sym r.tf r.ts with
            | some x => updateRow x r
            | none => r) := by
  unfold upsertOne findRow
  by_cases hany : store.any (keyIs r.sym r.tf r.ts)
  · rw [if_pos hany, List.find?_map]
    have hcomp : (keyIs r.sym r.tf r.ts ∘ fun x =>
        if keyIs r.sym r.tf r.ts x then updateRow x r else x) = keyIs r.sym r.tf r.ts := by
      funext x
      by_cases hk : keyIs r.sym r.tf r.ts x
      · simp [hk, keyIs_updateRow]
      · simp [hk]
    rw [hcomp]
    cases hfind : store.find? (keyIs r.sym r.tf r.ts) with
    | none =>
      obtain ⟨x, hx, hkx⟩ := List.any_eq_true.mp hany
      exact absurd hkx (List.find?_eq_none.mp hfind x hx)
    | some y =>
      have hky := List.find?_some hfind
      simp [hky]
  · rw [if_neg hany, List.find?_append]
    have hnone : store.find? (keyIs r.sym r.tf r.ts) = none := by
      rw [List.find?_eq_none]
      intro x hx hpx
      exact hany (List.any_eq_true.mpr ⟨x, hx, hpx⟩)
    have hr : keyIs r.sym r.tf r.ts r = true := by simp [keyIs]
    rw [hnone]
    simp [List.find?, hr]

/-- A batch upsert leaves keys outside the batch unchanged. -/
theorem findRow_upsert_not_mem (store batch : List DbRow) (sym tf : String) (ts : Nat)
    (h : ∀ b ∈ batch, ¬ (b.sym = sym ∧ b.tf = tf ∧ b.ts = ts)) :
    findRow (upsert store batch) sym tf ts = findRow store sym tf ts := by
  induction batch generalizing store with
  | nil => rfl
  | cons c rest ih =>
    have hstep : upsert store (c :: rest) = upsert (upsertOne store c) rest := rfl
    rw [hstep, ih (upsertOne store c) fun b hb => h b (List.mem_cons_of_mem c hb)]
    exact findRow_upsertOne_ne store c sym tf ts (h c (List.mem_cons_self c rest))

/-- A batch upsert with pairwise-distinct keys: the lookup of a batch row's
key is the batch row, merged over the pre-existing row when the key was
present. -/
theorem findRow_upsert_mem (store batch : List DbRow) (b : DbRow)
    (hnd : (batch.map rowKey).Nodup) (hb : b ∈ batch) :
    findRow (upsert store batch) b.sym b.tf b.ts =
      some (match findRow store b.sym b.tf b.ts with
            | some x => updateRow x b
            | none => b) := by
  induction batch generalizing store with
  | nil => cases hb
  | cons c rest ih =>
    have hstep : upsert store (c :: rest) = upsert (upsertOne store c) rest := rfl
    rw [hstep]
    have hnotin : rowKey c ∉ rest.map rowKey := (List.nodup_cons.mp (by simpa using hnd)).1
    rcases List.mem_cons.mp hb with hbc | hbr
    · subst hbc
      have hkey : ∀ x ∈ rest, ¬ (x.sym = b.sym ∧ x.tf = b.tf ∧ x.ts = b.ts) := by
        intro x hx hcon
        exact hnotin (List.mem_map.mpr
          ⟨x, hx, by simp [rowKey, hcon.1, hcon.2.1, hcon.2.2]⟩)
      rw [findRow_upsert_not_mem (upsertOne store b) rest b.sym b.tf b.ts hkey]
      exact findRow_upsertOne_self store b
    · have hnd2 : (rest.map rowKey).Nodup := (List.nodup_cons.mp (by simpa using hnd)).2
      have hne : ¬ (c.sym = b.sym ∧ c.tf = b.tf ∧ c.ts = b.ts) := by
        intro hcon
        exact hnotin (List.mem_map.mpr
          ⟨b, hbr, by simp [rowKey, hcon.1, hcon.2.1, hcon.2.2]⟩)
      rw [ih (upsertOne store c) hnd2 hbr]
      rw [findRow_upsertOne_ne store c b.sym b.tf b.ts hne]

/-- Upserting one row preserves key uniqueness. -/
theorem uniqueKeys_upsertOne (store : List DbRow) (r : DbRow) (h : uniqueKeys store) :
    uniqueKeys (upsertOne store r) := by
  unfold upsertOne
  by_cases hany : store.any (keyIs r.sym r.tf r.ts)
  · rw [if_pos hany]
    unfold uniqueKeys at h ⊢
    rw [List.pairwise_map]
    have hg : ∀ x, rowKey (if keyIs r.sym r.tf r.ts x then updateRow x r else x) = rowKey x := by
      intro x
      by_cases hk : keyIs r.sym r.tf r.ts x
      · simp [hk, rowKey_updateRow]
      · simp [hk]
    refine h.imp fun hab => ?_
    rw [hg, hg]
    exact hab
  · rw [if_neg hany]
    unfold uniqueKeys at h ⊢
    rw [List.pairwise_append]
    refine ⟨h, List.pairwise_singleton _ _, ?_⟩
    intro a ha b hb
    have hbr : b = r := by simpa using hb
    subst hbr
    intro hcon
    have hcon2 : a.sym = b.sym ∧ a.tf = b.tf ∧ a.ts = b.ts := by
      simpa [rowKey, Prod.ext_iff] using hcon
    have hka : keyIs b.sym b.tf b.ts a = true := by
      simp [keyIs, hcon2.1, hcon2.2.1, hcon2.2.2]
    exact hany (List.any_eq_true.mpr ⟨a, ha, hka⟩)

/-- A batch upsert preserves key uniqueness: no duplicate rows are created
for the unique key. -/
theorem uniqueKeys_upsert (store batch : List DbRow) (h : uniqueKeys store) :
    uniqueKeys (upsert store batch) := by
  induction batch generalizing store with
  | nil => exact h
  | cons c rest ih => exact ih (upsertOne store c) (uniqueKeys_upsertOne store c h)

/-- The batch one invocation writes has pairwise-distinct keys: one row per
distinct valid timestamp. -/
theorem dxyRows_keys_nodup (db : List FxRow) (f t : Nat) :
    ((dxyRows db f t).map rowKey).Nodup := by
  unfold dxyRows
  rw [List.map_map]
  have hw : (writtenTs db f t).Nodup := (List.nodup_dedup _).filter _
  refine List.Nodup.map ?_ hw
  intro a b hab
  simpa [rowKey, dxyRow] using hab

/-- After one invocation, the row stored under a written timestamp's key is
the freshly computed index row, merged over the pre-existing row if the key
already existed. -/
theorem findRow_calc_written (db : List FxRow) (f t : Nat) (store : List DbRow) (ts : Nat)
    (hts : ts ∈ writtenTs db f t) :
    findRow (calc_dxy_range_1m db f t store) "DXY" "1m" ts =
      some (match findRow store "DXY" "1m" ts with
            | some x => updateRow x (dxyRow db f t ts)
            | none => dxyRow db f t ts) := by
  have hb : dxyRow db f t ts ∈ dxyRows db f t := List.mem_map.mpr ⟨ts, hts, rfl⟩
  exact findRow_upsert_mem store (dxyRows db f t) (dxyRow db f t ts)
    (dxyRows_keys_nodup db f t) hb

/-- The pivot closes at a timestamp do not depend on the requested range, as
long as the timestamp is inside it. -/
theorem closesAt_range_indep (db : List FxRow) (f1 t1 f2 t2 : Nat) (s : String) (ts : Nat)
    (h1 : f1 ≤ ts ∧ ts < t1) (h2 : f2 ≤ ts ∧ ts < t2) :
    closesAt db f1 t1 s ts = closesAt db f2 t2 s ts := by
  unfold closesAt componentRows
  rw [List.filter_filter, List.filter_filter]
  congr 1
  apply List.filter_congr
  intro x _
  by_cases hts : x.ts = ts
  · subst hts
    simp [h1.1, h1.2, h2.1, h2.2]
  · simp [hts]

/-- The computed index price at a timestamp does not depend on the requested
range, as long as the timestamp is inside it. -/
theorem dxyPriceAt_range_indep (db : List FxRow) (f1 t1 f2 t2 ts : Nat)
    (h1 : f1 ≤ ts ∧ ts < t1) (h2 : f2 ≤ ts ∧ ts < t2) :
    dxyPriceAt db f1 t1 ts = dxyPriceAt db f2 t2 ts := by
  unfold dxyPriceAt pivotClose maxClose
  rw [closesAt_range_indep db f1 t1 f2 t2 "EURUSD" ts h1 h2,
    closesAt_range_indep db f1 t1 f2 t2 "USDJPY" ts h1 h2,
    closesAt_range_indep db f1 t1 f2 t2 "GBPUSD" ts h1 h2,
    closesAt_range_indep db f1 t1 f2 t2 "USDCAD" ts h1 h2,
    closesAt_range_indep db f1 t1 f2 t2 "USDSEK" ts h1 h2,
    closesAt_range_indep db f1 t1 f2 t2 "USDCHF" ts h1 h2]

/-- A timestamp written by one invocation is also written by any other
invocation whose range contains it (same component inputs). -/
theorem mem_writtenTs_stable (db : List FxRow) (f1 t1 f2 t2 ts : Nat)
    (h : ts ∈ writtenTs db f1 t1) (h2 : f2 ≤ ts ∧ ts < t2) :
    ts ∈ writtenTs db f2 t2 :=
  (mem_writtenTs_iff db f2 t2 ts).mpr ⟨h2, ((mem_writtenTs_iff db f1 t1 ts).mp h).2⟩

/-! ## Claim theorems C6, C10 -/

/-- Claim C6: re-invoking `calc_dxy_range_1m` over any second (overlapping)
range with the same component inputs leaves every index row written by the
first invocation with unchanged OHLC values, and the upsert never creates a
duplicate row for the unique key `(canonical_symbol, timeframe, ts_utc)`.
(`p_derivation_version` only enters the `raw` audit payload of inserted rows
and does not influence any stored OHLC value.) -/
theorem calc_dxy_idempotent_upsert (db : List FxRow) (f1 t1 f2 t2 : Nat)
    (store : List DbRow) :
    (∀ ts ∈ writtenTs db f1 t1,
        ohlcAt (calc_dxy_range_1m db f2 t2 (calc_dxy_range_1m db f1 t1 store)) ts =
          ohlcAt (calc_dxy_range_1m db f1 t1 store) ts)
    ∧ (uniqueKeys store →
        uniqueKeys (calc_dxy_range_1m db f2 t2 (calc_dxy_range_1m db f1 t1 store))) := by
  constructor
  · intro ts hts1
    by_cases hmem2 : ts ∈ writtenTs db f2 t2
    · unfold ohlcAt
      rw [findRow_calc_written db f2 t2 (calc_dxy_range_1m db f1 t1 store) ts hmem2,
        findRow_calc_written db f1 t1 store ts hts1]
      have hpr : dxyPriceAt db f2 t2 ts = dxyPriceAt db f1 t1 ts :=
        dxyPriceAt_range_indep db f2 t2 f1 t1 ts
          ((mem_writtenTs_iff db f2 t2 ts).mp hmem2).1
          ((mem_writtenTs_iff db f1 t1 ts).mp hts1).1
      cases hf0 : findRow store "DXY" "1m" ts with
      | none => simp [ohlcQuad, updateRow, dxyRow, hpr]
      | some x => simp [ohlcQuad, updateRow, dxyRow, hpr]
    · have hkeys : ∀ b ∈ dxyRows db f2 t2,
          ¬ (b.sym = "DXY" ∧ b.tf = "1m" ∧ b.ts = ts) := by
        intro b hbb hcon
        obtain ⟨ts2, hts2, rfl⟩ := List.mem_map.mp hbb
        have h22 : ts2 = ts := hcon.2.2
        exact hmem2 (h22 ▸ hts2)
      unfold ohlcAt
      rw [show calc_dxy_range_1m db f2 t2 (calc_dxy_range_1m db f1 t1 store)
            = upsert (calc_dxy_range_1m db f1 t1 store) (dxyRows db f2 t2) from rfl,
        findRow_upsert_not_mem (calc_dxy_range_1m db f1 t1 store) (dxyRows db f2 t2)
          "DXY" "1m" ts hkeys]
  · intro hu
    exact uniqueKeys_upsert _ _ (uniqueKeys_upsert _ _ hu)

/-- Claim C6, witness: re-running over `[0,120)` after `[0,60)` on the
all-components fixture leaves the OHLC of the row at `ts = 0` unchanged and
the store duplicate-free. -/
theorem calc_dxy_idempotent_upsert_witness :
    ohlcAt (calc_dxy_range_1m db0 0 120 (calc_dxy_range_1m db0 0 60 [])) 0 =
      ohlcAt (calc_dxy_range_1m db0 0 60 []) 0
    ∧ uniqueKeys (calc_dxy_range_1m db0 0 120 (calc_dxy_range_1m db0 0 60 [])) := by
  have h := calc_dxy_idempotent_upsert db0 0 60 0 120 []
  exact ⟨h.1 0 (by decide), h.2 (by simp [uniqueKeys])⟩

/-- Claim C10, counterexample: running `calc_dxy_range_1m` over a store that
already holds a DXY 1m row with `vol = 7` at the timestamp updates the row
(it becomes a synthetic zero-range bar) but leaves its volume at `7`, not
`0` — the `ON CONFLICT DO UPDATE` clause does not assign `vol`. -/
theorem calc_dxy_update_keeps_old_volume :
    (findRow (calc_dxy_range_1m db0 0 60 [preRow]) "DXY" "1m" 0).map DbRow.vol = some 7
    ∧ (findRow (calc_dxy_range_1m db0 0 60 [preRow]) "DXY" "1m" 0).map DbRow.source
        = some "synthetic" := by
  have h := findRow_calc_written db0 0 60 [preRow] 0 (by decide)
  have hf0 : findRow [preRow] "DXY" "1m" 0 = some preRow := rfl
  rw [hf0] at h
  rw [h]
  exact ⟨rfl, rfl⟩

/-- Claim C10 as amended: every row written by `calc_dxy_range_1m` has
`open = high = low = close` equal to the computed index price and
`source = 'synthetic'`; a newly inserted row additionally has `vol = 0`,
while an updated row keeps its previous volume.  Every written row is a
zero-range bar, so it satisfies the OHLC ordering invariants and falls under
the `zero_range_bars` filter of `check_enhanced_ohlc_integrity`. -/
theorem calc_dxy_rows_zero_range (db : List FxRow) (f t : Nat) (store : List DbRow)
    (ts : Nat) (hts : ts ∈ writtenTs db f t) :
    ∃ r, findRow (calc_dxy_range_1m db f t store) "DXY" "1m" ts = some r
      ∧ r.opn = dxyPriceAt db f t ts ∧ r.high = dxyPriceAt db f t ts
      ∧ r.low = dxyPriceAt db f t ts ∧ r.close = dxyPriceAt db f t ts
      ∧ r.source = "synthetic"
      ∧ (findRow store "DXY" "1m" ts = none → r.vol = 0)
      ∧ zero_range_bar r ∧ ¬ high_less_than_low r
      ∧ ¬ open_out_of_range r ∧ ¬ close_out_of_range r := by
  have h := findRow_calc_written db f t store ts hts
  cases hf0 : findRow store "DXY" "1m" ts with
  | some x =>
    rw [hf0] at h
    refine ⟨updateRow x (dxyRow db f t ts), h, rfl, rfl, rfl, rfl, rfl, ?_, rfl, ?_, ?_, ?_⟩
    · intro hnone
      exact Option.noConfusion hnone
    · exact lt_irrefl _
    · rintro (hlt | hlt) <;> exact lt_irrefl _ hlt
    · rintro (hlt | hlt) <;> exact lt_irrefl _ hlt
  | none =>
    rw [hf0] at h
    refine ⟨dxyRow db f t ts, h, rfl, rfl, rfl, rfl, rfl, fun _ => rfl, rfl, ?_, ?_, ?_⟩
    · exact lt_irrefl _
    · rintro (hlt | hlt) <;> exact lt_irrefl _ hlt
    · rintro (hlt | hlt) <;> exact lt_irrefl _ hlt

/-- Claim C10, witness: the freshly inserted bar at `ts = 0` on the
all-components fixture is synthetic with zero volume. -/
theorem calc_dxy_rows_zero_range_witness :
    (findRow (calc_dxy_range_1m db0 0 60 []) "DXY" "1m" 0).map DbRow.source
        = some "synthetic"
    ∧ (findRow (calc_dxy_range_1m db0 0 60 []) "DXY" "1m" 0).map DbRow.vol = some 0 := by
  obtain ⟨r, hfind, _, _, _, _, hsrc, hvol, _⟩ :=
    calc_dxy_rows_zero_range db0 0 60 [] 0 (by decide)
  rw [hfind]
  exact ⟨by simp [hsrc], by simp [hvol rfl]⟩

/-! ## Claim theorems C2, C7, C8, C9 -/

/-- Claim C2: a 5-minute bucket with exactly 3 of its 5 child 1-minute bars
is flagged as a defect by the aggregation-coverage check in strict mode
(`min_required = 5`, so the symbol's `bad_5m_bars` is positive), is accepted
in relaxed mode with `min_required = 3`, and carries
`quality_score = 3/5 = 0.6`; for buckets with at most `R = 5` children,
strict mode accepts exactly when `n = R`. -/
theorem agg_5m_partial_bucket_policy (rows : List (String × Nat)) (sym : String) (b : Nat)
    (hb : b ∈ symBuckets rows sym) (hn : bucketCount rows sym b = 3) :
    bucketFlagged 5 (bucketCount rows sym b) = true
    ∧ 0 < bad_5m_bars rows 5 sym
    ∧ bucketFlagged 3 (bucketCount rows sym b) = false
    ∧ quality_score 3 5 = 0.6
    ∧ (∀ n : Nat, n ≤ 5 → (bucketFlagged 5 n = false ↔ n = 5)) := by
  refine ⟨by simp [bucketFlagged, hn], ?_, by simp [bucketFlagged, hn],
    by norm_num [quality_score], ?_⟩
  · refine List.countP_pos_iff.mpr ⟨b, hb, ?_⟩
    simp [bucketFlagged, hn]
  · intro n hn5
    simp only [bucketFlagged, decide_eq_false_iff_not, Nat.not_lt]
    omega

/-- Claim C2, witness: a symbol with 1m bars at 0, 60 and 120 seconds has one
5m bucket holding exactly 3 children. -/
theorem agg_5m_partial_bucket_policy_witness :
    bucketFlagged 5 (bucketCount [("X", 0), ("X", 60), ("X", 120)] "X" 0) = true
    ∧ 0 < bad_5m_bars [("X", 0), ("X", 60), ("X", 120)] 5 "X"
    ∧ bucketFlagged 3 (bucketCount [("X", 0), ("X", 60), ("X", 120)] "X" 0) = false
    ∧ quality_score 3 5 = 0.6 := by
  have h := agg_5m_partial_bucket_policy [("X", 0), ("X", 60), ("X", 120)] "X" 0
    (by decide) (by decide)
  exact ⟨h.1, h.2.1, h.2.2.1, h.2.2.2.1⟩

/-- Claim C7 (code bug): when the staleness check — the first slot of
`run_phase_a` — raises, `safe_check` returns the empty-DataFrame fallback,
the tuple-unpacking of line 802 raises `ValueError`, and the whole phase
aborts with every remaining catalog check (here one healthy check and one
failing one) never executing; only when the staleness slot succeeds does the
run reach the remaining checks, each wrapped in `safe_check` as the claim
describes. -/
theorem run_phase_a_staleness_abort :
    run_phase_a_model (Except.error "psycopg2 error")
        [Except.ok [1], Except.error "boom"] = Except.error "ValueError"
    ∧ (∀ (p : List ℚ × Nat × Nat) (checks : List (Except String (List ℚ))),
        run_phase_a_model (Except.ok p) checks = Except.ok (p, run_checks checks)) := by
  exact ⟨rfl, fun p checks => rfl⟩

/-- Claim C8: `result_flag` is true exactly for a non-empty check result, and
the run of `main` succeeds iff every flag in every phase's problem-flag
mapping is false. -/
theorem verdict_flags_and_overall_success :
    (∀ df : List ℚ, result_flag df = true ↔ df ≠ [])
    ∧ (∀ phases : List (List (String × Bool)),
        overall_ok phases = true ↔ ∀ flags ∈ phases, ∀ p ∈ flags, p.2 = false) := by
  constructor
  · intro df
    simp [result_flag]
  · intro phases
    simp [overall_ok, List.all_eq_true]

/-- Claim C8, witness: a singleton defect makes the flag true, and a run with
only false flags succeeds while one true flag fails it. -/
theorem verdict_flags_and_overall_success_witness :
    result_flag [1] = true
    ∧ overall_ok [[("duplicates_data_bars_1m", false)], [("volume_issues", false)]] = true
    ∧ overall_ok [[("duplicates_data_bars_1m", true)]] ≠ true := by
  have h := verdict_flags_and_overall_success
  refine ⟨(h.1 [1]).mpr (by decide), (h.2 _).mpr (by decide), fun hc => ?_⟩
  have := (h.2 _).mp hc [("duplicates_data_bars_1m", true)] (by decide)
    ("duplicates_data_bars_1m", true) (by decide)
  simp at this

/-- Claim C9: when the earliest stored 1-minute timestamp is later than
`now - hist + grace`, `run_phase_b` sets the
`insufficient_historical_coverage` problem flag and still executes and
reports every remaining historical check. -/
theorem coverage_guardrail_soft_failure (e now histDur : Int)
    (checks : List (Except String (List ℚ)))
    (h : required_min_ts now histDur < e) :
    (run_phase_b_model (some e) now histDur checks).insufficient_historical_coverage = true
    ∧ (run_phase_b_model (some e) now histDur checks).check_results.length = checks.length
    ∧ (∀ i : Nat, (run_phase_b_model (some e) now histDur checks).check_results[i]?
        = (checks[i]?).map safe_check) := by
  refine ⟨?_, List.length_map checks safe_check,
    fun i => List.getElem?_map safe_check checks i⟩
  simp [run_phase_b_model, sufficient_coverage, not_le.mpr h]

/-- Claim C9, witness: a store whose earliest bar is far younger than the
requested window, with one remaining check. -/
theorem coverage_guardrail_soft_failure_witness :
    (run_phase_b_model (some 100) 0 700000 [Except.ok [1]]).insufficient_historical_coverage
        = true
    ∧ (run_phase_b_model (some 100) 0 700000 [Except.ok [1]]).check_results.length = 1 := by
  have h := coverage_guardrail_soft_failure 100 0 700000 [Except.ok [1]] (by decide)
  exact ⟨h.1, h.2.1⟩
